import Mathlib

/-!
Verification development for a struct-field tag tokenizer (scanner +
value normalizer).  The Go source (tagparser.go) is shallowly embedded:
strings become `List Char` (the inputs are byte-oriented; every byte of
interest is ASCII), index-based loops become fuel-indexed structural
recursions where the fuel is exactly the number of loop iterations left
(`bound - i`), and the mutable scan state becomes explicit state records.
The embedded scanner additionally records the trace of callback
invocations (`calls`), which is the observable the source exposes through
its callback parameter.
-/

set_option maxRecDepth 8000

/-- The backslash character (byte 92). -/
def bsl : Char := Char.ofNat 92

/-- The single-quote character (byte 39). -/
def quo : Char := Char.ofNat 39

/-- Embedding of the `asciiSpace` table: tab, LF, VT, FF, CR, space. -/
def asciiSpace (c : Char) : Bool :=
  c = Char.ofNat 9 || c = Char.ofNat 10 || c = Char.ofNat 11 ||
  c = Char.ofNat 12 || c = Char.ofNat 13 || c = Char.ofNat 32

/-- Embedding of type `Configuration` from tagparser.go. -/
structure Configuration where
  FirstItemIsName : Bool
  AllowParenEscape : Bool
  AllowMiddleQuote : Bool
deriving DecidableEq

/-- Preset `WithName`: sane defaults, first item is a name. -/
def WithName : Configuration := ⟨true, false, false⟩

/-- Preset `WithoutName`: sane defaults, no special first item. -/
def WithoutName : Configuration := ⟨false, false, false⟩

/-- Preset `VMihailenco`: fully permissive legacy-compatible mode. -/
def VMihailenco : Configuration := ⟨true, true, true⟩

/-- Embedding of `strings.IndexByte(s, c) >= 0` as a membership test. -/
def containsChar : List Char → Char → Bool
  | [], _ => false
  | c :: rest, a => if c = a then true else containsChar rest a

/-- Forward whitespace scan of `unquoteTrim`
    (`for start < n && asciiSpace[s[start]] { start++ }`),
    written as a structural recursion carrying the running index. -/
def trimStartAux : List Char → Nat → Nat
  | [], acc => acc
  | c :: rest, acc => if asciiSpace c = true then trimStartAux rest (acc + 1) else acc

/-- Index of the first non-whitespace byte (the `start` of `unquoteTrim`). -/
def trimStart (s : List Char) : Nat := trimStartAux s 0

/-- Backward whitespace scan of `unquoteTrim`
    (`for end > start && asciiSpace[s[end-1]] { end-- }`). -/
def trimEndLoop (s : List Char) (start : Nat) : Nat → Nat
  | 0 => 0
  | e + 1 =>
    if start < e + 1 ∧ asciiSpace (s.getD e (Char.ofNat 65)) = true then
      trimEndLoop s start e
    else e + 1

/-- Is `c` one of the three opening brackets. -/
def isOpen (c : Char) : Bool :=
  c = Char.ofNat 40 || c = Char.ofNat 91 || c = Char.ofNat 123

/-- Is `c` one of the three closing brackets. -/
def isClose (c : Char) : Bool :=
  c = Char.ofNat 41 || c = Char.ofNat 93 || c = Char.ofNat 125

/-- The mutable locals of `unquoteTrim`'s rewrite loop: output buffer `b`,
    bracket `nesting` depth, `quoteCount`, the (never again read) `inQuote`
    toggle, and the error latch (`parseErr`, `errPos`); `parseErr = ""`
    encodes "no error", exactly as the Go zero value does. -/
structure UTState where
  b : List Char
  nesting : Nat
  quoteCount : Nat
  inQuote : Bool
  parseErr : String
  errPos : Nat
deriving DecidableEq

/-- The rewrite loop of `unquoteTrim` (label `mainLoop` in the source).
    `i` is the current index into `s`; the fuel argument is the number of
    remaining iterations `e - i` (where `e` is the trimmed end), so an
    escape that consumes its following byte spends two units of fuel.
    The escape lookahead checks `i + 1 < s.length` — the full length `n`,
    not the trimmed end — exactly as the source does. -/
def utLoopF (conf : Configuration) (s : List Char) : Nat → Nat → UTState → UTState
  | 0, _, st => st
  | f + 1, i, ⟨b, nesting, quoteCount, inQuote, parseErr, errPos⟩ =>
    if s.getD i (Char.ofNat 65) = bsl then
      if i + 1 < s.length then
        match f with
        | 0 => ⟨b ++ [s.getD (i + 1) (Char.ofNat 65)], nesting, quoteCount, inQuote,
                parseErr, errPos⟩
        | g + 1 =>
          utLoopF conf s g (i + 2)
            ⟨b ++ [s.getD (i + 1) (Char.ofNat 65)], nesting, quoteCount, inQuote,
             parseErr, errPos⟩
      else utLoopF conf s f (i + 1) ⟨b, nesting, quoteCount, inQuote, parseErr, errPos⟩
    else if isOpen (s.getD i (Char.ofNat 65)) = true then
      utLoopF conf s f (i + 1)
        ⟨b ++ [s.getD i (Char.ofNat 65)],
         if conf.AllowParenEscape = true then nesting + 1 else nesting,
         quoteCount, inQuote, parseErr, errPos⟩
    else if isClose (s.getD i (Char.ofNat 65)) = true then
      utLoopF conf s f (i + 1)
        ⟨b ++ [s.getD i (Char.ofNat 65)],
         if conf.AllowParenEscape = true ∧ 0 < nesting then nesting - 1 else nesting,
         quoteCount, inQuote, parseErr, errPos⟩
    else if s.getD i (Char.ofNat 65) = quo then
      if nesting = 0 then
        if conf.AllowMiddleQuote = false ∧
            (2 < quoteCount + 1 ∨ (quoteCount + 1 = 1 ∧ b ≠ [])) ∧ parseErr = "" then
          utLoopF conf s f (i + 1)
            ⟨b, nesting, quoteCount + 1, !inQuote, "invalid quote", i⟩
        else
          utLoopF conf s f (i + 1) ⟨b, nesting, quoteCount + 1, !inQuote, parseErr, errPos⟩
      else utLoopF conf s f (i + 1)
        ⟨b ++ [s.getD i (Char.ofNat 65)], nesting, quoteCount, inQuote, parseErr, errPos⟩
    else utLoopF conf s f (i + 1)
      ⟨b ++ [s.getD i (Char.ofNat 65)], nesting, quoteCount, inQuote, parseErr, errPos⟩

/-- Embedding of `unquoteTrim`: trim unescaped leading/trailing ASCII
    whitespace, fast-path when the whole string has no backslash and no
    quote, otherwise run the rewrite loop from `start` up to `e`. -/
def unquoteTrim (conf : Configuration) (s : List Char) : List Char × String × Nat :=
  let n := s.length
  let start := trimStart s
  let e := trimEndLoop s start n
  if containsChar s bsl = false ∧ containsChar s quo = false then
    ((s.drop start).take (e - start), "", 0)
  else
    let st := utLoopF conf s (e - start) start ⟨[], 0, 0, false, "", 0⟩
    (st.b, st.parseErr, st.errPos)

/-- Embedding of the `Error` struct (cause generalized over a type `α`;
    the accumulating entry points use `α = Unit` for `ErrDuplicateKey`). -/
structure PError (α : Type) where
  tag : List Char
  pos : Nat
  msg : String
  cause : Option α
deriving DecidableEq

/-- Rendering of `Error.Error()`: positions are surfaced 1-based. -/
def renderError (causeStr : α → String) (e : PError α) : String :=
  match e.cause with
  | some c =>
    if e.msg ≠ "" then
      e.msg ++ ": " ++ causeStr c ++ " (at " ++ toString (e.pos + 1) ++ ")"
    else causeStr c ++ " (at " ++ toString (e.pos + 1) ++ ")"
  | none => e.msg ++ " (at " ++ toString (e.pos + 1) ++ ")"

/-- Rendering of `ErrDuplicateKey`. -/
def causeText : Unit → String := fun _ => "duplicate option key"

/-- The per-item callback: consumes its own state `σ`, a key and a value,
    returns updated state and an optional error (`nil` becomes `none`). -/
def Callback (σ α : Type) : Type := σ → List Char → List Char → σ × Option α

/-- The mutable locals of `ParseFunc` that the closures `fail` and `flush`
    share, plus the callback's own state `user` and the observable trace
    `calls` of callback invocations. -/
structure ScanState (σ α : Type) where
  parseErr : Option (PError α)
  count : Nat
  inValue : Bool
  start : Nat
  key : List Char
  keyStart : Nat
  user : σ
  calls : List (List Char × List Char)
deriving DecidableEq

variable {σ α : Type}

/-- Embedding of the closure `fail`: latch an error only when none is set. -/
def fail (tag : List Char) (st : ScanState σ α) (i : Nat) (msg : String)
    (cause : Option α) : ScanState σ α :=
  match st.parseErr with
  | none => { st with parseErr := some ⟨tag, i, msg, cause⟩ }
  | some _ => st

/-- Go slice `tag[a:b]`. -/
def sliceTag (tag : List Char) (a b : Nat) : List Char := (tag.drop a).take (b - a)

/-- The character class rejected after a backslash:
    `c >= 'a' && c <= 'z' || c >= 'A' && c <= 'Z' || c >= '0' && c <= '9'`. -/
def isAlnum (c : Char) : Bool :=
  (Char.ofNat 97 ≤ c && c ≤ Char.ofNat 122) ||
  (Char.ofNat 65 ≤ c && c ≤ Char.ofNat 90) ||
  (Char.ofNat 48 ≤ c && c ≤ Char.ofNat 57)

/-- Embedding of the closure `checkEscape`: called with the index of the
    byte following a backslash. -/
def checkEscape (tag : List Char) (st : ScanState σ α) (i : Nat) : ScanState σ α :=
  if i < tag.length then
    if isAlnum (tag.getD i (Char.ofNat 65)) = true then
      fail tag st i "invalid escape character" none
    else st
  else fail tag st (i - 1) "unterminated escape sequence" none

/-- The tail of `flush`: invoke the callback with the current key and the
    given value, record the invocation, and wrap a callback failure into a
    latched error whose message is the key and whose position is the key's
    start offset. -/
def runCallback (tag : List Char) (cb : Callback σ α) (st : ScanState σ α)
    (value : List Char) : ScanState σ α :=
  match (cb st.user st.key value).2 with
  | some e =>
    fail tag { st with user := (cb st.user st.key value).1,
                       calls := st.calls ++ [(st.key, value)] }
      st.keyStart (String.mk st.key) (some e)
  | none =>
    { st with user := (cb st.user st.key value).1, calls := st.calls ++ [(st.key, value)] }

/-- The pattern `if errMsg != "" { fail(pos, errMsg, nil) }` that follows
    every `unquoteTrim` call inside `flush`. -/
def latch (tag : List Char) (st : ScanState σ α) (pos : Nat) (msg : String) :
    ScanState σ α :=
  if msg ≠ "" then fail tag st pos msg none else st

/-- Embedding of the closure `flush`, finalizing the item that ends at
    index `i`.  Mirrors the source: `count` is incremented first; the name
    branch fires for the first item in name mode when no colon was seen;
    otherwise key/value are normalized (latching normalization errors),
    empty items are skipped silently, and an empty normalized key for a
    non-name item latches "empty key" and skips the callback. -/
def flush (conf : Configuration) (tag : List Char) (cb : Callback σ α)
    (st0 : ScanState σ α) (i : Nat) : ScanState σ α :=
  let st := { st0 with count := st0.count + 1 }
  if st.count = 1 ∧ conf.FirstItemIsName = true ∧ st.inValue = false then
    let r := unquoteTrim conf (sliceTag tag st.start i)
    let st2 := latch tag { st with key := [], keyStart := st.start } (st.start + r.2.2) r.2.1
    runCallback tag cb st2 r.1
  else if st.inValue = true then
    let rk := unquoteTrim conf st.key
    let st2 := latch tag { st with key := rk.1 } (st.keyStart + rk.2.2) rk.2.1
    let rv := unquoteTrim conf (sliceTag tag st2.start i)
    let st3 := latch tag st2 (st2.start + rv.2.2) rv.2.1
    if st3.key = [] then fail tag st3 st3.keyStart "empty key" none
    else runCallback tag cb st3 rv.1
  else if st.start < i then
    let rk := unquoteTrim conf (sliceTag tag st.start i)
    let st3 := latch tag { st with key := rk.1, keyStart := st.start } (st.start + rk.2.2) rk.2.1
    if st3.key = [] then fail tag st3 st3.keyStart "empty key" none
    else runCallback tag cb st3 []
  else st

/-- The main scan loop of `ParseFunc`.  `i` indexes `tag`; the fuel is the
    number of remaining iterations `tag.length - i` (escapes consume two).
    Returns the final `quoteStart`, `nesting` and state.  The three
    top-level modes are: inside a quote (`qs = some _`), inside brackets
    (`0 < ns`), and the ordinary mode. -/
def scanLoopF (conf : Configuration) (tag : List Char) (cb : Callback σ α) :
    Nat → Nat → Option Nat → Nat → ScanState σ α → Option Nat × Nat × ScanState σ α
  | 0, _, qs, ns, st => (qs, ns, st)
  | f + 1, i, qs, ns, st =>
    match qs with
    | some q =>
      if tag.getD i (Char.ofNat 65) = quo then scanLoopF conf tag cb f (i + 1) none ns st
      else if tag.getD i (Char.ofNat 65) = bsl then
        match f with
        | 0 => (some q, ns, checkEscape tag st (i + 1))
        | g + 1 => scanLoopF conf tag cb g (i + 2) (some q) ns (checkEscape tag st (i + 1))
      else scanLoopF conf tag cb f (i + 1) (some q) ns st
    | none =>
      if 0 < ns then
        if isClose (tag.getD i (Char.ofNat 65)) = true then
          scanLoopF conf tag cb f (i + 1) none (ns - 1) st
        else if tag.getD i (Char.ofNat 65) = bsl then
          match f with
          | 0 => (none, ns, checkEscape tag st (i + 1))
          | g + 1 => scanLoopF conf tag cb g (i + 2) none ns (checkEscape tag st (i + 1))
        else scanLoopF conf tag cb f (i + 1) none ns st
      else
        if tag.getD i (Char.ofNat 65) = quo then scanLoopF conf tag cb f (i + 1) (some i) ns st
        else if tag.getD i (Char.ofNat 65) = bsl then
          match f with
          | 0 => (none, ns, checkEscape tag st (i + 1))
          | g + 1 => scanLoopF conf tag cb g (i + 2) none ns (checkEscape tag st (i + 1))
        else if tag.getD i (Char.ofNat 65) = Char.ofNat 58 then
          if st.inValue = false then
            scanLoopF conf tag cb f (i + 1) none ns
              { st with key := sliceTag tag st.start i, keyStart := st.start,
                        start := i + 1, inValue := true }
          else scanLoopF conf tag cb f (i + 1) none ns st
        else if tag.getD i (Char.ofNat 65) = Char.ofNat 44 then
          scanLoopF conf tag cb f (i + 1) none ns
            { flush conf tag cb st i with start := i + 1, inValue := false }
        else if isOpen (tag.getD i (Char.ofNat 65)) = true then
          scanLoopF conf tag cb f (i + 1) none
            (if conf.AllowParenEscape = true then ns + 1 else ns) st
        else scanLoopF conf tag cb f (i + 1) none ns st

/-- The scan loop entered at index `i` (the source enters at `i = 0`). -/
def scanLoop (conf : Configuration) (tag : List Char) (cb : Callback σ α)
    (i : Nat) (qs : Option Nat) (ns : Nat) (st : ScanState σ α) :
    Option Nat × Nat × ScanState σ α :=
  scanLoopF conf tag cb (tag.length - i) i qs ns st

/-- The initial scan state. -/
def initState (u0 : σ) : ScanState σ α := ⟨none, 0, false, 0, [], 0, u0, []⟩

/-- Embedding of `ParseFunc`: run the scan, latch "unterminated quote" if a
    quote is still open, and finalize a dangling item.  Returns the whole
    final state; the source's return value is its `parseErr` field, and the
    callback's effects are its `user` and `calls` fields. -/
def ParseFunc (conf : Configuration) (tag : List Char) (cb : Callback σ α)
    (u0 : σ) : ScanState σ α :=
  let r := scanLoop conf tag cb 0 none 0 (initState u0)
  let st :=
    match r.1 with
    | some q => fail tag r.2.2 q "unterminated quote" none
    | none => r.2.2
  if st.start < tag.length ∨ st.inValue = true then flush conf tag cb st tag.length else st

/-- Association-list lookup, standing in for the Go map read `opts[key]`. -/
def lookupKey : List (List Char × List Char) → List Char → Option (List Char)
  | [], _ => none
  | (k, v) :: rest, key => if k = key then some v else lookupKey rest key

/-- The callback closure of `Parse`: reject duplicate keys (keeping the
    first occurrence), otherwise insert. -/
def parseCb (opts : List (List Char × List Char)) (key value : List Char) :
    List (List Char × List Char) × Option Unit :=
  if (lookupKey opts key).isSome then (opts, some ())
  else (opts ++ [(key, value)], none)

/-- Embedding of `Parse` (map-building, no special first item handling of
    its own): the full final scan state; its `user` field is the map. -/
def Parse (conf : Configuration) (tag : List Char) :
    ScanState (List (List Char × List Char)) Unit :=
  ParseFunc conf tag parseCb []

/-- The callback closure of `ParseName`: an empty key stores the name, a
    duplicate non-empty key is rejected (first occurrence kept). -/
def parseNameCb (st : List Char × List (List Char × List Char))
    (key value : List Char) :
    (List Char × List (List Char × List Char)) × Option Unit :=
  if key = [] then ((value, st.2), none)
  else if (lookupKey st.2 key).isSome then (st, some ())
  else ((st.1, st.2 ++ [(key, value)]), none)

/-- Embedding of `ParseName`: the full final scan state; its `user` field
    is the pair (name, options map). -/
def ParseName (conf : Configuration) (tag : List Char) :
    ScanState (List Char × List (List Char × List Char)) Unit :=
  ParseFunc conf tag parseNameCb ([], [])

/-! ### Helper lemmas: the error latch never influences anything else -/

/-- Overwrite the error slot of a scan state. -/
def setErr (st : ScanState σ α) (p : Option (PError α)) : ScanState σ α :=
  { st with parseErr := p }

theorem fail_proj (tag : List Char) (st : ScanState σ α) (i : Nat) (m : String)
    (c : Option α) :
    (fail tag st i m c).count = st.count ∧ (fail tag st i m c).inValue = st.inValue ∧
    (fail tag st i m c).start = st.start ∧ (fail tag st i m c).key = st.key ∧
    (fail tag st i m c).keyStart = st.keyStart ∧ (fail tag st i m c).user = st.user ∧
    (fail tag st i m c).calls = st.calls := by
  unfold fail; cases st.parseErr <;> simp

theorem setErr_fail (tag : List Char) (st : ScanState σ α) (i : Nat) (m : String)
    (c : Option α) (p : Option (PError α)) :
    setErr (fail tag st i m c) p = setErr st p := by
  unfold fail setErr; cases st.parseErr <;> rfl

theorem fail_setErr_some (tag : List Char) (st : ScanState σ α) (e : PError α)
    (i : Nat) (m : String) (c : Option α) :
    fail tag (setErr st (some e)) i m c = setErr st (some e) := by
  rfl

theorem setErr_latch (tag : List Char) (st : ScanState σ α) (pos : Nat) (m : String)
    (p : Option (PError α)) :
    setErr (latch tag st pos m) p = setErr st p := by
  unfold latch; split
  · exact setErr_fail ..
  · rfl

theorem latch_setErr_some (tag : List Char) (st : ScanState σ α) (e : PError α)
    (pos : Nat) (m : String) :
    latch tag (setErr st (some e)) pos m = setErr st (some e) := by
  unfold latch; split
  · exact fail_setErr_some ..
  · rfl

theorem latch_proj (tag : List Char) (st : ScanState σ α) (pos : Nat) (m : String) :
    (latch tag st pos m).count = st.count ∧ (latch tag st pos m).inValue = st.inValue ∧
    (latch tag st pos m).start = st.start ∧ (latch tag st pos m).key = st.key ∧
    (latch tag st pos m).keyStart = st.keyStart ∧ (latch tag st pos m).user = st.user ∧
    (latch tag st pos m).calls = st.calls := by
  unfold latch; split
  · exact fail_proj ..
  · simp

theorem setErr_checkEscape (tag : List Char) (st : ScanState σ α) (i : Nat)
    (p : Option (PError α)) :
    setErr (checkEscape tag st i) p = setErr st p := by
  unfold checkEscape
  split
  · split
    · exact setErr_fail ..
    · rfl
  · exact setErr_fail ..

theorem checkEscape_setErr_some (tag : List Char) (st : ScanState σ α) (e : PError α)
    (i : Nat) :
    checkEscape tag (setErr st (some e)) i = setErr st (some e) := by
  unfold checkEscape
  split
  · split
    · exact fail_setErr_some ..
    · rfl
  · exact fail_setErr_some ..

theorem runCallback_setErr_some (tag : List Char) (cb : Callback σ α)
    (st : ScanState σ α) (e : PError α) (v : List Char) :
    runCallback tag cb (setErr st (some e)) v = setErr (runCallback tag cb st v) (some e) := by
  unfold runCallback
  dsimp only [setErr]
  cases h : (cb st.user st.key v).2 with
  | none => rfl
  | some e2 => cases hp : st.parseErr <;> simp [fail, hp]


theorem setErr_parseErr (st : ScanState σ α) (p : Option (PError α)) :
    (setErr st p).parseErr = p := rfl

theorem setErr_count (st : ScanState σ α) (p : Option (PError α)) :
    (setErr st p).count = st.count := rfl

theorem setErr_inValue (st : ScanState σ α) (p : Option (PError α)) :
    (setErr st p).inValue = st.inValue := rfl

theorem setErr_start (st : ScanState σ α) (p : Option (PError α)) :
    (setErr st p).start = st.start := rfl

theorem setErr_key (st : ScanState σ α) (p : Option (PError α)) :
    (setErr st p).key = st.key := rfl

theorem setErr_keyStart (st : ScanState σ α) (p : Option (PError α)) :
    (setErr st p).keyStart = st.keyStart := rfl

theorem setErr_user (st : ScanState σ α) (p : Option (PError α)) :
    (setErr st p).user = st.user := rfl

theorem setErr_calls (st : ScanState σ α) (p : Option (PError α)) :
    (setErr st p).calls = st.calls := rfl

theorem setErr_mk (p q : Option (PError α)) (c : Nat) (iv : Bool) (s : Nat)
    (k : List Char) (ks : Nat) (u : σ) (cl : List (List Char × List Char)) :
    setErr (ScanState.mk p c iv s k ks u cl) q = ScanState.mk q c iv s k ks u cl := rfl

theorem latch_count (tag : List Char) (st : ScanState σ α) (pos : Nat) (m : String) :
    (latch tag st pos m).count = st.count := (latch_proj ..).1

theorem latch_inValue (tag : List Char) (st : ScanState σ α) (pos : Nat) (m : String) :
    (latch tag st pos m).inValue = st.inValue := (latch_proj ..).2.1

theorem latch_start (tag : List Char) (st : ScanState σ α) (pos : Nat) (m : String) :
    (latch tag st pos m).start = st.start := (latch_proj ..).2.2.1

theorem latch_key (tag : List Char) (st : ScanState σ α) (pos : Nat) (m : String) :
    (latch tag st pos m).key = st.key := (latch_proj ..).2.2.2.1

theorem latch_keyStart (tag : List Char) (st : ScanState σ α) (pos : Nat) (m : String) :
    (latch tag st pos m).keyStart = st.keyStart := (latch_proj ..).2.2.2.2.1

theorem latch_user (tag : List Char) (st : ScanState σ α) (pos : Nat) (m : String) :
    (latch tag st pos m).user = st.user := (latch_proj ..).2.2.2.2.2.1

theorem latch_calls (tag : List Char) (st : ScanState σ α) (pos : Nat) (m : String) :
    (latch tag st pos m).calls = st.calls := (latch_proj ..).2.2.2.2.2.2

theorem fail_count (tag : List Char) (st : ScanState σ α) (i : Nat) (m : String)
    (c : Option α) : (fail tag st i m c).count = st.count := (fail_proj ..).1

theorem fail_inValue (tag : List Char) (st : ScanState σ α) (i : Nat) (m : String)
    (c : Option α) : (fail tag st i m c).inValue = st.inValue := (fail_proj ..).2.1

theorem fail_start (tag : List Char) (st : ScanState σ α) (i : Nat) (m : String)
    (c : Option α) : (fail tag st i m c).start = st.start := (fail_proj ..).2.2.1

theorem fail_key (tag : List Char) (st : ScanState σ α) (i : Nat) (m : String)
    (c : Option α) : (fail tag st i m c).key = st.key := (fail_proj ..).2.2.2.1

theorem fail_keyStart (tag : List Char) (st : ScanState σ α) (i : Nat) (m : String)
    (c : Option α) : (fail tag st i m c).keyStart = st.keyStart := (fail_proj ..).2.2.2.2.1

theorem fail_user (tag : List Char) (st : ScanState σ α) (i : Nat) (m : String)
    (c : Option α) : (fail tag st i m c).user = st.user := (fail_proj ..).2.2.2.2.2.1

theorem fail_calls (tag : List Char) (st : ScanState σ α) (i : Nat) (m : String)
    (c : Option α) : (fail tag st i m c).calls = st.calls := (fail_proj ..).2.2.2.2.2.2

theorem latch_some_mk (tag : List Char) (pos : Nat) (m : String) (e : PError α)
    (c : Nat) (iv : Bool) (s : Nat) (k : List Char) (ks : Nat) (u : σ)
    (cl : List (List Char × List Char)) :
    latch tag (ScanState.mk (some e) c iv s k ks u cl) pos m =
      ScanState.mk (some e) c iv s k ks u cl := by
  unfold latch fail; split <;> rfl

theorem fail_some_mk (tag : List Char) (i : Nat) (m : String) (cz : Option α)
    (e : PError α) (c : Nat) (iv : Bool) (s : Nat) (k : List Char) (ks : Nat) (u : σ)
    (cl : List (List Char × List Char)) :
    fail tag (ScanState.mk (some e) c iv s k ks u cl) i m cz =
      ScanState.mk (some e) c iv s k ks u cl := rfl

theorem runCallback_some_mk (tag : List Char) (cb : Callback σ α) (v : List Char)
    (e : PError α) (c : Nat) (iv : Bool) (s : Nat) (k : List Char) (ks : Nat) (u : σ)
    (cl : List (List Char × List Char)) :
    runCallback tag cb (ScanState.mk (some e) c iv s k ks u cl) v =
      ScanState.mk (some e) c iv s k ks (cb u k v).1 (cl ++ [(k, v)]) := by
  unfold runCallback; cases (cb u k v).2 <;> rfl

theorem setErr_runCallback (tag : List Char) (cb : Callback σ α)
    (st : ScanState σ α) (v : List Char) (q : Option (PError α)) :
    setErr (runCallback tag cb st v) q =
      ScanState.mk q st.count st.inValue st.start st.key st.keyStart
        (cb st.user st.key v).1 (st.calls ++ [(st.key, v)]) := by
  unfold runCallback setErr
  cases (cb st.user st.key v).2 with
  | none => rfl
  | some e2 => unfold fail; cases st.parseErr <;> rfl

theorem flush_setErr_some (conf : Configuration) (tag : List Char) (cb : Callback σ α)
    (st : ScanState σ α) (e : PError α) (i : Nat) :
    flush conf tag cb (setErr st (some e)) i = setErr (flush conf tag cb st i) (some e) := by
  unfold flush
  simp only [setErr_parseErr, setErr_count, setErr_inValue, setErr_start, setErr_key,
    setErr_keyStart, setErr_user, setErr_calls, latch_count, latch_inValue, latch_start,
    latch_key, latch_keyStart, latch_user, latch_calls, latch_some_mk, fail_some_mk,
    runCallback_some_mk, setErr_runCallback, setErr_latch, setErr_fail, setErr_mk]
  split
  · simp only [setErr_runCallback, setErr_latch, setErr_fail, setErr_mk, latch_count,
      latch_inValue, latch_start, latch_key, latch_keyStart, latch_user, latch_calls]
  · split
    · split <;>
        simp only [setErr_runCallback, setErr_latch, setErr_fail, setErr_mk, latch_count,
          latch_inValue, latch_start, latch_key, latch_keyStart, latch_user, latch_calls]
    · split
      · split <;>
          simp only [setErr_runCallback, setErr_latch, setErr_fail, setErr_mk, latch_count,
            latch_inValue, latch_start, latch_key, latch_keyStart, latch_user, latch_calls]
      · rfl

theorem checkEscape_proj (tag : List Char) (st : ScanState σ α) (i : Nat) :
    (checkEscape tag st i).count = st.count ∧ (checkEscape tag st i).inValue = st.inValue ∧
    (checkEscape tag st i).start = st.start ∧ (checkEscape tag st i).key = st.key ∧
    (checkEscape tag st i).keyStart = st.keyStart ∧ (checkEscape tag st i).user = st.user ∧
    (checkEscape tag st i).calls = st.calls := by
  unfold checkEscape
  split
  · split
    · exact fail_proj ..
    · simp
  · exact fail_proj ..


/-- Apply `setErr` to the state component of a scan-loop result. -/
def setErrRes (r : Option Nat × Nat × ScanState σ α) (p : Option (PError α)) :
    Option Nat × Nat × ScanState σ α :=
  (r.1, r.2.1, setErr r.2.2 p)

theorem scanLoopF_setErr_some (conf : Configuration) (tag : List Char)
    (cb : Callback σ α) (e : PError α) :
    ∀ (f i : Nat) (qs : Option Nat) (ns : Nat) (st : ScanState σ α),
      scanLoopF conf tag cb f i qs ns (setErr st (some e)) =
        setErrRes (scanLoopF conf tag cb f i qs ns st) (some e) := by
  intro f
  induction f using Nat.strong_induction_on with
  | _ f ih =>
    intro i qs ns st
    match f with
    | 0 => rfl
    | f' + 1 =>
      unfold scanLoopF
      cases qs with
      | some q =>
        dsimp only [setErr_inValue, setErr_start, setErr_key, setErr_keyStart,
          setErr_count, setErr_user, setErr_calls, setErr_parseErr]
        split
        · exact ih f' (by omega) ..
        · split
          · cases f' with
            | zero =>
              show (some q, ns, checkEscape tag (setErr st (some e)) (i + 1)) = _
              rw [checkEscape_setErr_some]
              show _ = (some q, ns, setErr (checkEscape tag st (i + 1)) (some e))
              rw [setErr_checkEscape]
            | succ g =>
              show scanLoopF conf tag cb g (i + 2) (some q) ns
                    (checkEscape tag (setErr st (some e)) (i + 1)) = _
              rw [checkEscape_setErr_some,
                show setErr st (some e) = setErr (checkEscape tag st (i + 1)) (some e) from
                  (setErr_checkEscape ..).symm]
              exact ih g (by omega) ..
          · exact ih f' (by omega) ..
      | none =>
        dsimp only [setErr_inValue, setErr_start, setErr_key, setErr_keyStart,
          setErr_count, setErr_user, setErr_calls, setErr_parseErr]
        split
        · split
          · exact ih f' (by omega) ..
          · split
            · cases f' with
              | zero =>
                show (none, ns, checkEscape tag (setErr st (some e)) (i + 1)) = _
                rw [checkEscape_setErr_some]
                show _ = (none, ns, setErr (checkEscape tag st (i + 1)) (some e))
                rw [setErr_checkEscape]
              | succ g =>
                show scanLoopF conf tag cb g (i + 2) none ns
                      (checkEscape tag (setErr st (some e)) (i + 1)) = _
                rw [checkEscape_setErr_some,
                  show setErr st (some e) = setErr (checkEscape tag st (i + 1)) (some e) from
                    (setErr_checkEscape ..).symm]
                exact ih g (by omega) ..
            · exact ih f' (by omega) ..
        · split
          · exact ih f' (by omega) ..
          · split
            · cases f' with
              | zero =>
                show (none, ns, checkEscape tag (setErr st (some e)) (i + 1)) = _
                rw [checkEscape_setErr_some]
                show _ = (none, ns, setErr (checkEscape tag st (i + 1)) (some e))
                rw [setErr_checkEscape]
              | succ g =>
                show scanLoopF conf tag cb g (i + 2) none ns
                      (checkEscape tag (setErr st (some e)) (i + 1)) = _
                rw [checkEscape_setErr_some,
                  show setErr st (some e) = setErr (checkEscape tag st (i + 1)) (some e) from
                    (setErr_checkEscape ..).symm]
                exact ih g (by omega) ..
            · split
              · split
                · exact ih f' (by omega) (i + 1) none ns
                    { st with key := sliceTag tag st.start i, keyStart := st.start,
                              start := i + 1, inValue := true }
                · exact ih f' (by omega) ..
              · split
                · show scanLoopF conf tag cb f' (i + 1) none ns
                        { flush conf tag cb (setErr st (some e)) i with
                          start := i + 1, inValue := false } = _
                  rw [flush_setErr_some]
                  exact ih f' (by omega) (i + 1) none ns
                    { flush conf tag cb st i with start := i + 1, inValue := false }
                · split
                  · exact ih f' (by omega) ..
                  · exact ih f' (by omega) ..

/-- C1: `ParseFunc` retains only the first error of the whole pass and still
scans to the end of the input, invoking the callback once per recognized
item even after an error is latched.  Formally, for a state whose error
slot is already latched with `e` (written `setErr st (some e)`):
`fail` leaves it untouched (a later failure never overwrites it), a whole
item finalization (`flush`) changes the state exactly as it would have
without the latched error except that the error stays `e`, and the entire
scan loop from any position produces exactly the result of the error-free
scan with the error slot still `e` — in particular the same `calls` trace,
so every recognized item is still delivered to the callback. -/
theorem c1_first_error_latched_scan_still_completes (conf : Configuration)
    (tag : List Char) (cb : Callback σ α) (st : ScanState σ α) (e : PError α)
    (i : Nat) (m : String) (c : Option α) (qs : Option Nat) (ns : Nat) :
    fail tag (setErr st (some e)) i m c = setErr st (some e) ∧
    flush conf tag cb (setErr st (some e)) i = setErr (flush conf tag cb st i) (some e) ∧
    scanLoop conf tag cb i qs ns (setErr st (some e)) =
      setErrRes (scanLoop conf tag cb i qs ns st) (some e) :=
  ⟨fail_setErr_some .., flush_setErr_some .., by
    unfold scanLoop
    exact scanLoopF_setErr_some conf tag cb e (tag.length - i) i qs ns st⟩

theorem trimStart_of_headD (s : List Char)
    (hh : asciiSpace (s.headD (Char.ofNat 65)) = false) : trimStart s = 0 := by
  cases s with
  | nil => rfl
  | cons c t =>
    simp only [List.headD_cons] at hh
    unfold trimStart trimStartAux
    simp [hh]

theorem trimEndLoop_of_lastD (s : List Char)
    (hl : asciiSpace (s.getD (s.length - 1) (Char.ofNat 65)) = false) :
    trimEndLoop s 0 s.length = s.length := by
  rcases hn : s.length with _ | m
  · rfl
  · rw [hn] at hl
    unfold trimEndLoop
    simp at hl
    simp [hl]

/-- C8: normalization is idempotent on already-normalized strings: a string
with no backslash, no single quote, and no leading or trailing ASCII
whitespace byte is returned unchanged by `unquoteTrim`, with no error. -/
theorem c8_unquoteTrim_idempotent_on_normalized (conf : Configuration) (s : List Char)
    (hb : containsChar s bsl = false) (hq : containsChar s quo = false)
    (hh : asciiSpace (s.headD (Char.ofNat 65)) = false)
    (hl : asciiSpace (s.getD (s.length - 1) (Char.ofNat 65)) = false) :
    unquoteTrim conf s = (s, "", 0) := by
  unfold unquoteTrim
  simp only [hb, hq, and_self, if_true, trimStart_of_headD s hh,
    trimEndLoop_of_lastD s hl]
  simp

/-- Witness for C8 at the concrete already-normalized string "ab". -/
theorem c8_witness :
    containsChar [Char.ofNat 97, Char.ofNat 98] bsl = false ∧
    containsChar [Char.ofNat 97, Char.ofNat 98] quo = false ∧
    unquoteTrim WithName [Char.ofNat 97, Char.ofNat 98] =
      ([Char.ofNat 97, Char.ofNat 98], "", 0) :=
  ⟨by decide, by decide,
    c8_unquoteTrim_idempotent_on_normalized WithName [Char.ofNat 97, Char.ofNat 98]
      (by decide) (by decide) (by decide) (by decide)⟩


theorem runCallback_calls (tag : List Char) (cb : Callback σ α) (st : ScanState σ α)
    (v : List Char) :
    (runCallback tag cb st v).calls = st.calls ++ [(st.key, v)] := by
  unfold runCallback
  cases (cb st.user st.key v).2 with
  | none => rfl
  | some e2 => exact (fail_proj ..).2.2.2.2.2.2

/-- C3: with `FirstItemIsName` set, when the very first item (`count = 0`
so far) is finalized with no colon seen (`inValue = false`), the callback
is invoked exactly once with the empty key and the whole trimmed/unescaped
substring of the item as the value; if instead an unquoted unescaped colon
was seen in the first item (`inValue = true`), it is finalized as a normal
key:value item and no empty-key (name) invocation is ever produced by it. -/
theorem c3_first_item_name_rule (conf : Configuration) (tag : List Char)
    (cb : Callback σ α) (st : ScanState σ α) (i : Nat) (h0 : st.count = 0) :
    (conf.FirstItemIsName = true → st.inValue = false →
      (flush conf tag cb st i).calls =
        st.calls ++ [([], (unquoteTrim conf (sliceTag tag st.start i)).1)]) ∧
    (st.inValue = true →
      ∀ k v, (k, v) ∈ (flush conf tag cb st i).calls → (k, v) ∈ st.calls ∨ k ≠ []) := by
  constructor
  · intro hn hv
    unfold flush
    rw [if_pos (by simp [h0, hn, hv])]
    rw [runCallback_calls, latch_calls, latch_key]
  · intro hv k v hm
    unfold flush at hm
    rw [if_neg (by simp [hv]), if_pos hv] at hm
    dsimp only at hm
    split at hm
    · rw [fail_calls, latch_calls, latch_calls] at hm
      exact Or.inl hm
    · rw [runCallback_calls, latch_calls, latch_calls] at hm
      rcases List.mem_append.mp hm with h | h
      · exact Or.inl h
      · refine Or.inr ?_
        have hk := List.mem_singleton.mp h
        have hke : (k, v).1 ≠ [] := by
          rw [hk]
          rename_i hkey
          rw [latch_key, latch_key] at hkey ⊢
          exact hkey
        exact hke

/-- Witness for C3: finalizing the first item of tag "a" in name mode
invokes the callback once with empty key and value "a". -/
theorem c3_witness :
    (flush WithName [Char.ofNat 97] parseNameCb
        (initState (([], []) : List Char × List (List Char × List Char))) 1).calls =
      [] ++ [([], [Char.ofNat 97])] :=
  (c3_first_item_name_rule WithName [Char.ofNat 97] parseNameCb
      (initState ([], [])) 1 rfl).1 rfl rfl

/-- C5: a backslash escapes exactly the next byte.  In every scanner mode
(inside a quote, inside brackets, or ordinary) a two-byte input consisting
of a backslash and any byte is consumed as a unit, validated by
`checkEscape`; `checkEscape` raises "invalid escape character" at the
escaped byte's position when it is an ASCII letter or digit, and
"unterminated escape sequence" at the backslash's position when the
backslash is the last byte.  Concretely, parsing `a\lfa` in name-first
mode yields best-guess name "alfa" and the rendered error
"invalid escape character (at 3)". -/
theorem c5_backslash_escape_rules (tag : List Char) (st : ScanState σ α) (i : Nat) :
    (tag.length ≤ i →
      checkEscape tag st i = fail tag st (i - 1) "unterminated escape sequence" none) ∧
    (i < tag.length → isAlnum (tag.getD i (Char.ofNat 65)) = true →
      checkEscape tag st i = fail tag st i "invalid escape character" none) ∧
    (i < tag.length → isAlnum (tag.getD i (Char.ofNat 65)) = false →
      checkEscape tag st i = st) ∧
    (∀ (conf : Configuration) (cb : Callback σ α) (qs : Option Nat) (ns : Nat)
        (c : Char) (st2 : ScanState σ α),
      scanLoop conf [bsl, c] cb 0 qs ns st2 = (qs, ns, checkEscape [bsl, c] st2 1)) ∧
    ((ParseName WithName
        [Char.ofNat 97, bsl, Char.ofNat 108, Char.ofNat 102, Char.ofNat 97]).user =
      ([Char.ofNat 97, Char.ofNat 108, Char.ofNat 102, Char.ofNat 97], []) ∧
     (ParseName WithName
        [Char.ofNat 97, bsl, Char.ofNat 108, Char.ofNat 102, Char.ofNat 97]).parseErr =
      some ⟨[Char.ofNat 97, bsl, Char.ofNat 108, Char.ofNat 102, Char.ofNat 97], 2,
            "invalid escape character", none⟩ ∧
     renderError causeText
        ⟨[Char.ofNat 97, bsl, Char.ofNat 108, Char.ofNat 102, Char.ofNat 97], 2,
         "invalid escape character", none⟩ =
      "invalid escape character (at 3)") := by
  refine ⟨?_, ?_, ?_, ?_, ?_, ?_, ?_⟩
  · intro h
    unfold checkEscape
    rw [if_neg (by omega)]
  · intro h ha
    unfold checkEscape
    rw [if_pos h, if_pos ha]
  · intro h ha
    unfold checkEscape
    rw [if_pos h, if_neg (by rw [ha]; simp)]
  · intro conf cb qs ns c st2
    show scanLoopF conf [bsl, c] cb 2 0 qs ns st2 = _
    cases qs with
    | some q => rfl
    | none =>
      by_cases hns : 0 < ns
      · unfold scanLoopF
        dsimp only
        rw [if_pos hns]
        rfl
      · unfold scanLoopF
        dsimp only
        rw [if_neg hns]
        rfl
  · decide
  · decide
  · decide

/-- Witness for C5: a trailing backslash of `[\]` raises "unterminated
escape sequence" at offset 0, and `\l` raises "invalid escape character"
at the position of `l`. -/
theorem c5_witness :
    checkEscape [bsl] (initState () : ScanState Unit Unit) 1 =
      fail [bsl] (initState ()) 0 "unterminated escape sequence" none ∧
    checkEscape [bsl, Char.ofNat 108] (initState () : ScanState Unit Unit) 1 =
      fail [bsl, Char.ofNat 108] (initState ()) 1 "invalid escape character" none :=
  ⟨(c5_backslash_escape_rules [bsl] (initState ()) 1).1 (by decide),
   (c5_backslash_escape_rules [bsl, Char.ofNat 108] (initState ()) 1).2.1 (by decide)
     (by decide)⟩

/-- The tag `alfa,bravo:charlie,bravo:delta` of the duplicate-key example. -/
def dupTag : List Char :=
  [Char.ofNat 97, Char.ofNat 108, Char.ofNat 102, Char.ofNat 97, Char.ofNat 44,
   Char.ofNat 98, Char.ofNat 114, Char.ofNat 97, Char.ofNat 118, Char.ofNat 111,
   Char.ofNat 58, Char.ofNat 99, Char.ofNat 104, Char.ofNat 97, Char.ofNat 114,
   Char.ofNat 108, Char.ofNat 105, Char.ofNat 101, Char.ofNat 44, Char.ofNat 98,
   Char.ofNat 114, Char.ofNat 97, Char.ofNat 118, Char.ofNat 111, Char.ofNat 58,
   Char.ofNat 100, Char.ofNat 101, Char.ofNat 108, Char.ofNat 116, Char.ofNat 97]

/-- C6: the map-building entry points reject duplicate non-empty keys: the
accumulating callbacks keep the first occurrence's value and signal the
duplicate (`ErrDuplicateKey`, modelled as cause `()`) without touching the
map, `runCallback` wraps a callback failure into a `ParseError` whose
message is the key and whose position is the key's start offset, and
concretely `alfa,bravo:charlie,bravo:delta` in name-first mode yields name
"alfa", map `bravo ↦ charlie`, and the rendered error
"bravo: duplicate option key (at 20)" with 0-based position 19. -/
theorem c6_duplicate_keys_rejected (opts : List (List Char × List Char))
    (k v w nm : List Char) (tag : List Char) (cb : Callback σ α)
    (st : ScanState σ α) (e2 : α) :
    (lookupKey opts k = some w → parseCb opts k v = (opts, some ())) ∧
    (lookupKey opts k = none → parseCb opts k v = (opts ++ [(k, v)], none)) ∧
    (k ≠ [] → lookupKey opts k = some w →
      parseNameCb (nm, opts) k v = ((nm, opts), some ())) ∧
    (st.parseErr = none → (cb st.user st.key v).2 = some e2 →
      runCallback tag cb st v =
        { st with user := (cb st.user st.key v).1,
                  calls := st.calls ++ [(st.key, v)],
                  parseErr := some ⟨tag, st.keyStart, String.mk st.key, some e2⟩ }) ∧
    (ParseName WithName dupTag).user =
      ([Char.ofNat 97, Char.ofNat 108, Char.ofNat 102, Char.ofNat 97],
       [([Char.ofNat 98, Char.ofNat 114, Char.ofNat 97, Char.ofNat 118, Char.ofNat 111],
         [Char.ofNat 99, Char.ofNat 104, Char.ofNat 97, Char.ofNat 114, Char.ofNat 108,
          Char.ofNat 105, Char.ofNat 101])]) ∧
    (ParseName WithName dupTag).parseErr =
      some ⟨dupTag, 19,
            { data := [Char.ofNat 98, Char.ofNat 114, Char.ofNat 97, Char.ofNat 118,
                       Char.ofNat 111] }, some ()⟩ ∧
    renderError causeText
        ⟨dupTag, 19,
         { data := [Char.ofNat 98, Char.ofNat 114, Char.ofNat 97, Char.ofNat 118,
                    Char.ofNat 111] }, some ()⟩ =
      "bravo: duplicate option key (at 20)" := by
  refine ⟨?_, ?_, ?_, ?_, by decide, by decide, by decide⟩
  · intro h
    unfold parseCb
    rw [h]
    rfl
  · intro h
    unfold parseCb
    rw [h]
    rfl
  · intro hk h
    unfold parseNameCb
    rw [if_neg hk, h]
    rfl
  · intro h1 h2
    unfold runCallback
    rw [h2]
    unfold fail
    rw [h1]

/-- Witness for C6: inserting key "a" twice leaves the map unchanged and
signals the duplicate. -/
theorem c6_witness :
    parseCb [([Char.ofNat 97], [Char.ofNat 98])] [Char.ofNat 97] [Char.ofNat 99] =
      ([([Char.ofNat 97], [Char.ofNat 98])], some ()) :=
  (c6_duplicate_keys_rejected [([Char.ofNat 97], [Char.ofNat 98])] [Char.ofNat 97]
      [Char.ofNat 99] [Char.ofNat 98] [] []
      (fun (u : Unit) _ _ => (u, (none : Option Unit))) (initState ()) ()).1 (by decide)

theorem runCallback_count (tag : List Char) (cb : Callback σ α) (st : ScanState σ α)
    (v : List Char) : (runCallback tag cb st v).count = st.count := by
  unfold runCallback
  cases (cb st.user st.key v).2 with
  | none => rfl
  | some e2 => exact (fail_proj ..).1

/-- The shape invariant of the calls trace: only the head invocation may
carry an empty key, and only when `FirstItemIsName` is enabled. -/
def CallsOK (conf : Configuration) : List (List Char × List Char) → Prop
  | [] => True
  | kv :: rest => (kv.1 = [] → conf.FirstItemIsName = true) ∧ ∀ kv2 ∈ rest, kv2.1 ≠ []

/-- Scan-state invariant: before the first finalized item there are no
calls, and the calls trace satisfies `CallsOK`. -/
def ScanOK (conf : Configuration) (st : ScanState σ α) : Prop :=
  (st.count = 0 → st.calls = []) ∧ CallsOK conf st.calls

theorem callsOK_append (conf : Configuration) (l : List (List Char × List Char))
    (k v : List Char) (h : CallsOK conf l) (hk : k ≠ []) :
    CallsOK conf (l ++ [(k, v)]) := by
  cases l with
  | nil => exact ⟨fun he => absurd he hk, by simp⟩
  | cons hd tl =>
    rw [List.cons_append]
    refine ⟨h.1, ?_⟩
    intro kv2 hm
    rcases List.mem_append.mp hm with h2 | h2
    · exact h.2 kv2 h2
    · rw [List.mem_singleton.mp h2]; exact hk

theorem callsOK_mem (conf : Configuration) (l : List (List Char × List Char))
    (kv : List Char × List Char) (h : CallsOK conf l) (hm : kv ∈ l) (hk : kv.1 = []) :
    conf.FirstItemIsName = true ∧ l.head? = some kv := by
  cases l with
  | nil => cases hm
  | cons hd tl =>
    rcases List.mem_cons.mp hm with h2 | h2
    · subst h2
      exact ⟨h.1 hk, rfl⟩
    · exact absurd hk (h.2 kv h2)

theorem scanOK_fail (conf : Configuration) (tag : List Char) (st : ScanState σ α)
    (i : Nat) (m : String) (c : Option α) (h : ScanOK conf st) :
    ScanOK conf (fail tag st i m c) := by
  unfold ScanOK
  rw [fail_count, fail_calls]
  exact h

theorem scanOK_checkEscape (conf : Configuration) (tag : List Char)
    (st : ScanState σ α) (i : Nat) (h : ScanOK conf st) :
    ScanOK conf (checkEscape tag st i) := by
  unfold ScanOK
  rw [(checkEscape_proj ..).1, (checkEscape_proj ..).2.2.2.2.2.2]
  exact h

theorem flush_scanOK (conf : Configuration) (tag : List Char) (cb : Callback σ α)
    (st : ScanState σ α) (i : Nat) (h : ScanOK conf st) :
    ScanOK conf (flush conf tag cb st i) := by
  unfold flush
  dsimp only
  split
  · rename_i hcond
    have hcalls : st.calls = [] := h.1 (by omega)
    constructor
    · intro hcnt
      rw [runCallback_count, latch_count] at hcnt
      exact absurd hcnt (by simp)
    · rw [runCallback_calls, latch_calls, latch_key]
      dsimp only
      rw [hcalls, List.nil_append]
      exact ⟨fun _ => hcond.2.1, by simp⟩
  · split
    · split
      · refine ⟨fun hcnt => ?_, ?_⟩
        · rw [fail_count, latch_count, latch_count] at hcnt
          exact absurd hcnt (by simp)
        · rw [fail_calls, latch_calls, latch_calls]
          exact h.2
      · rename_i hkey
        refine ⟨fun hcnt => ?_, ?_⟩
        · rw [runCallback_count, latch_count, latch_count] at hcnt
          exact absurd hcnt (by simp)
        · rw [runCallback_calls, latch_calls, latch_calls]
          refine callsOK_append conf st.calls _ _ h.2 ?_
          rw [latch_key, latch_key] at hkey
          rw [latch_key, latch_key]
          exact hkey
    · split
      · split
        · refine ⟨fun hcnt => ?_, ?_⟩
          · rw [fail_count, latch_count] at hcnt
            exact absurd hcnt (by simp)
          · rw [fail_calls, latch_calls]
            exact h.2
        · rename_i hkey
          refine ⟨fun hcnt => ?_, ?_⟩
          · rw [runCallback_count, latch_count] at hcnt
            exact absurd hcnt (by simp)
          · rw [runCallback_calls, latch_calls]
            refine callsOK_append conf st.calls _ _ h.2 ?_
            rw [latch_key] at hkey
            rw [latch_key]
            exact hkey
      · exact ⟨fun hcnt => absurd hcnt (by simp), h.2⟩

theorem scanLoopF_scanOK (conf : Configuration) (tag : List Char) (cb : Callback σ α) :
    ∀ (f i : Nat) (qs : Option Nat) (ns : Nat) (st : ScanState σ α),
      ScanOK conf st → ScanOK conf (scanLoopF conf tag cb f i qs ns st).2.2 := by
  intro f
  induction f using Nat.strong_induction_on with
  | _ f ih =>
    intro i qs ns st h
    match f with
    | 0 => exact h
    | f' + 1 =>
      unfold scanLoopF
      cases qs with
      | some q =>
        dsimp only
        split
        · exact ih f' (by omega) _ _ _ _ h
        · split
          · cases f' with
            | zero => exact scanOK_checkEscape conf tag st (i + 1) h
            | succ g =>
              exact ih g (by omega) _ _ _ _ (scanOK_checkEscape conf tag st (i + 1) h)
          · exact ih f' (by omega) _ _ _ _ h
      | none =>
        dsimp only
        split
        · split
          · exact ih f' (by omega) _ _ _ _ h
          · split
            · cases f' with
              | zero => exact scanOK_checkEscape conf tag st (i + 1) h
              | succ g =>
                exact ih g (by omega) _ _ _ _ (scanOK_checkEscape conf tag st (i + 1) h)
            · exact ih f' (by omega) _ _ _ _ h
        · split
          · exact ih f' (by omega) _ _ _ _ h
          · split
            · cases f' with
              | zero => exact scanOK_checkEscape conf tag st (i + 1) h
              | succ g =>
                exact ih g (by omega) _ _ _ _ (scanOK_checkEscape conf tag st (i + 1) h)
            · split
              · split
                · exact ih f' (by omega) _ _ _ _ h
                · exact ih f' (by omega) _ _ _ _ h
              · split
                · refine ih f' (by omega) _ _ _ _ ?_
                  have hf := flush_scanOK conf tag cb st i h
                  exact ⟨hf.1, hf.2⟩
                · split
                  · exact ih f' (by omega) _ _ _ _ h
                  · exact ih f' (by omega) _ _ _ _ h

theorem latch_empty_msg (tag : List Char) (st : ScanState σ α) (pos : Nat) :
    latch tag st pos "" = st := by
  unfold latch
  simp

theorem parseFunc_scanOK (conf : Configuration) (tag : List Char) (cb : Callback σ α)
    (u0 : σ) : ScanOK conf (ParseFunc conf tag cb u0) := by
  have hinit : ScanOK conf (initState u0 : ScanState σ α) := ⟨fun _ => rfl, trivial⟩
  have hloop := scanLoopF_scanOK conf tag cb (tag.length - 0) 0 none 0 (initState u0) hinit
  unfold ParseFunc scanLoop
  dsimp only
  split
  · apply flush_scanOK
    split
    · exact scanOK_fail _ _ _ _ _ _ hloop
    · exact hloop
  · split
    · exact scanOK_fail _ _ _ _ _ _ hloop
    · exact hloop

/-- C7: the callback is never invoked with an empty key for a normal
(non-name) item: over a whole `ParseFunc` run an empty-key invocation can
only be the very first one and only with `FirstItemIsName` enabled; and at
the finalization level, an item whose key normalizes to the empty string
latches "empty key" at the key's start offset and is skipped without any
callback invocation (both for a key:value item and for a lone key). -/
theorem c7_empty_key_only_for_name_slot (conf : Configuration) (tag : List Char)
    (cb : Callback σ α) (u0 : σ) (st : ScanState σ α) (i : Nat) :
    (∀ kv ∈ (ParseFunc conf tag cb u0).calls, kv.1 = [] →
      conf.FirstItemIsName = true ∧ (ParseFunc conf tag cb u0).calls.head? = some kv) ∧
    (st.inValue = true → (unquoteTrim conf st.key).1 = [] →
      (flush conf tag cb st i).calls = st.calls ∧
      (st.parseErr = none → (unquoteTrim conf st.key).2.1 = "" →
        (unquoteTrim conf (sliceTag tag st.start i)).2.1 = "" →
        (flush conf tag cb st i).parseErr = some ⟨tag, st.keyStart, "empty key", none⟩)) ∧
    (st.inValue = false → ¬(st.count = 0 ∧ conf.FirstItemIsName = true) → st.start < i →
      (unquoteTrim conf (sliceTag tag st.start i)).1 = [] →
      (flush conf tag cb st i).calls = st.calls ∧
      (st.parseErr = none → (unquoteTrim conf (sliceTag tag st.start i)).2.1 = "" →
        (flush conf tag cb st i).parseErr = some ⟨tag, st.start, "empty key", none⟩)) := by
  refine ⟨?_, ?_, ?_⟩
  · intro kv hm hk
    have h := parseFunc_scanOK conf tag cb u0
    exact callsOK_mem conf _ kv h.2 hm hk
  · intro hv hk
    unfold flush
    dsimp only
    rw [if_neg (by simp [hv]), if_pos hv,
      if_pos (by rw [latch_key, latch_key]; exact hk)]
    refine ⟨by rw [fail_calls, latch_calls, latch_calls], ?_⟩
    intro h1 h2 h3
    rw [h2, latch_empty_msg]
    dsimp only
    rw [h3, latch_empty_msg]
    unfold fail
    dsimp only
    rw [h1]
  · intro hv hnb hlt hk
    unfold flush
    dsimp only
    rw [if_neg (fun hc => hnb ⟨by omega, hc.2.1⟩), if_neg (by simp [hv]), if_pos hlt,
      if_pos (by rw [latch_key]; exact hk)]
    refine ⟨by rw [fail_calls, latch_calls], ?_⟩
    intro h1 h2
    rw [h2, latch_empty_msg]
    unfold fail
    dsimp only
    rw [h1]

/-- Witness for C7: finalizing a key:value item whose key part is empty
latches "empty key" at the key's start offset. -/
theorem c7_witness :
    (flush WithoutName [Char.ofNat 97] (fun (u : Unit) _ _ => (u, (none : Option Unit)))
        ⟨none, 1, true, 0, [], 0, (), []⟩ 1).parseErr =
      some ⟨[Char.ofNat 97], 0, "empty key", none⟩ :=
  ((c7_empty_key_only_for_name_slot WithoutName [Char.ofNat 97]
      (fun (u : Unit) _ _ => (u, (none : Option Unit))) ()
      ⟨none, 1, true, 0, [], 0, (), []⟩ 1).2.1 rfl (by decide)).2 rfl (by decide) (by decide)

theorem containsChar_mem : ∀ (s : List Char) (a : Char), containsChar s a = true → a ∈ s := by
  intro s a h
  induction s with
  | nil => cases h
  | cons c t ih =>
    unfold containsChar at h
    split at h
    · rename_i hc
      rw [← hc]
      exact List.mem_cons_self ..
    · exact List.mem_cons_of_mem c (ih h)

theorem getD_mem_or : ∀ (s : List Char) (i : Nat) (d : Char),
    s.getD i d ∈ s ∨ s.getD i d = d
  | [], _, d => Or.inr (by simp)
  | c :: t, 0, d => Or.inl (by simp)
  | c :: t, i + 1, d => by
    rcases getD_mem_or t i d with h | h
    · exact Or.inl (by simp only [List.getD_cons_succ]; exact List.mem_cons_of_mem c h)
    · exact Or.inr (by simp only [List.getD_cons_succ]; exact h)

theorem ws_or_default_not_special (c : Char)
    (h : asciiSpace c = true ∨ c = Char.ofNat 65) :
    c ≠ quo ∧ c ≠ bsl ∧ c ≠ Char.ofNat 58 ∧ c ≠ Char.ofNat 44 ∧
    isOpen c = false ∧ isClose c = false := by
  rcases h with h | h
  · unfold asciiSpace at h
    simp only [Bool.or_eq_true, decide_eq_true_eq] at h
    rcases h with ((((h | h) | h) | h) | h) | h <;> subst h <;> exact ⟨by decide, by decide,
      by decide, by decide, by decide, by decide⟩
  · subst h
    exact ⟨by decide, by decide, by decide, by decide, by decide, by decide⟩

theorem scanLoopF_ws (conf : Configuration) (tag : List Char) (cb : Callback σ α)
    (hws : ∀ c ∈ tag, asciiSpace c = true) :
    ∀ (f i : Nat) (st : ScanState σ α),
      scanLoopF conf tag cb f i none 0 st = (none, 0, st) := by
  intro f
  induction f with
  | zero => intro i st; rfl
  | succ f' ih =>
    intro i st
    have hc : asciiSpace (tag.getD i (Char.ofNat 65)) = true ∨
        tag.getD i (Char.ofNat 65) = Char.ofNat 65 := by
      rcases getD_mem_or tag i (Char.ofNat 65) with h | h
      · exact Or.inl (hws _ h)
      · exact Or.inr h
    obtain ⟨h1, h2, h3, h4, h5, h6⟩ := ws_or_default_not_special _ hc
    unfold scanLoopF
    dsimp only
    rw [if_neg (by omega), if_neg h1, if_neg h2, if_neg h3, if_neg h4,
      if_neg (by rw [h5]; simp)]
    exact ih (i + 1) st

theorem trimStartAux_ws (s : List Char) (hws : ∀ c ∈ s, asciiSpace c = true) :
    ∀ acc, trimStartAux s acc = acc + s.length := by
  induction s with
  | nil => intro acc; rfl
  | cons c t ih =>
    intro acc
    unfold trimStartAux
    rw [if_pos (hws c (List.mem_cons_self ..))]
    rw [ih (fun x hx => hws x (List.mem_cons_of_mem c hx)) (acc + 1)]
    simp only [List.length_cons]
    omega

theorem trimEndLoop_at_start (s : List Char) (e : Nat) : trimEndLoop s e e = e := by
  cases e with
  | zero => rfl
  | succ m =>
    unfold trimEndLoop
    rw [if_neg (by omega)]

theorem unquoteTrim_ws (conf : Configuration) (s : List Char)
    (hws : ∀ c ∈ s, asciiSpace c = true) : unquoteTrim conf s = ([], "", 0) := by
  have hb : containsChar s bsl = false := by
    cases h : containsChar s bsl
    · rfl
    · exact absurd (hws bsl (containsChar_mem s bsl h)) (by decide)
  have hq : containsChar s quo = false := by
    cases h : containsChar s quo
    · rfl
    · exact absurd (hws quo (containsChar_mem s quo h)) (by decide)
  have hstart : trimStart s = s.length := by
    unfold trimStart
    rw [trimStartAux_ws s hws 0]
    omega
  unfold unquoteTrim
  rw [hb, hq]
  simp only [hstart, trimEndLoop_at_start, and_self, if_true]
  simp

theorem flush_calls_mono (conf : Configuration) (tag : List Char) (cb : Callback σ α)
    (st : ScanState σ α) (i : Nat) :
    ∃ l, (flush conf tag cb st i).calls = st.calls ++ l := by
  unfold flush
  dsimp only
  split
  · exact ⟨_, by rw [runCallback_calls, latch_calls]⟩
  · split
    · split
      · exact ⟨[], by rw [List.append_nil, fail_calls, latch_calls, latch_calls]⟩
      · exact ⟨_, by rw [runCallback_calls, latch_calls, latch_calls]⟩
    · split
      · split
        · exact ⟨[], by rw [List.append_nil, fail_calls, latch_calls]⟩
        · exact ⟨_, by rw [runCallback_calls, latch_calls]⟩
      · exact ⟨[], by rw [List.append_nil]⟩

theorem scanLoopF_calls_mono (conf : Configuration) (tag : List Char)
    (cb : Callback σ α) :
    ∀ (f i : Nat) (qs : Option Nat) (ns : Nat) (st : ScanState σ α),
      ∃ l, (scanLoopF conf tag cb f i qs ns st).2.2.calls = st.calls ++ l := by
  intro f
  induction f using Nat.strong_induction_on with
  | _ f ih =>
    intro i qs ns st
    match f with
    | 0 => exact ⟨[], by rw [List.append_nil]; rfl⟩
    | f' + 1 =>
      unfold scanLoopF
      cases qs with
      | some q =>
        dsimp only
        split
        · exact ih f' (by omega) ..
        · split
          · cases f' with
            | zero =>
              exact ⟨[], by rw [List.append_nil]; exact (checkEscape_proj ..).2.2.2.2.2.2⟩
            | succ g =>
              obtain ⟨l, hl⟩ := ih g (by omega) (i + 2) (some q) ns (checkEscape tag st (i + 1))
              exact ⟨l, by rw [hl, (checkEscape_proj ..).2.2.2.2.2.2]⟩
          · exact ih f' (by omega) ..
      | none =>
        dsimp only
        split
        · split
          · exact ih f' (by omega) ..
          · split
            · cases f' with
              | zero =>
                exact ⟨[], by rw [List.append_nil]; exact (checkEscape_proj ..).2.2.2.2.2.2⟩
              | succ g =>
                obtain ⟨l, hl⟩ := ih g (by omega) (i + 2) none ns (checkEscape tag st (i + 1))
                exact ⟨l, by rw [hl, (checkEscape_proj ..).2.2.2.2.2.2]⟩
            · exact ih f' (by omega) ..
        · split
          · exact ih f' (by omega) ..
          · split
            · cases f' with
              | zero =>
                exact ⟨[], by rw [List.append_nil]; exact (checkEscape_proj ..).2.2.2.2.2.2⟩
              | succ g =>
                obtain ⟨l, hl⟩ := ih g (by omega) (i + 2) none ns (checkEscape tag st (i + 1))
                exact ⟨l, by rw [hl, (checkEscape_proj ..).2.2.2.2.2.2]⟩
            · split
              · split
                · exact ih f' (by omega) ..
                · exact ih f' (by omega) ..
              · split
                · obtain ⟨l1, hl1⟩ := flush_calls_mono conf tag cb st i
                  obtain ⟨l2, hl2⟩ := ih f' (by omega) (i + 1) none ns
                    { flush conf tag cb st i with start := i + 1, inValue := false }
                  exact ⟨l1 ++ l2, by rw [hl2]; dsimp only; rw [hl1, List.append_assoc]⟩
                · split
                  · exact ih f' (by omega) ..
                  · exact ih f' (by omega) ..

theorem sliceTag_whole (tag : List Char) : sliceTag tag 0 tag.length = tag := by
  simp [sliceTag]

/-- C10: with `FirstItemIsName` enabled, an empty first item is not
silently skipped the way later empty items are: a whitespace-only tag
still produces exactly one callback invocation with empty key and empty
value (so `ParseName` reports an empty name with no error), and a tag
beginning with a comma produces that same empty-key, empty-value
invocation as its first callback invocation. -/
theorem c10_empty_first_item_reported (conf : Configuration)
    (hn : conf.FirstItemIsName = true) :
    (∀ tag : List Char, tag ≠ [] → (∀ c ∈ tag, asciiSpace c = true) →
      (ParseName conf tag).calls = [([], [])] ∧
      (ParseName conf tag).parseErr = none ∧
      (ParseName conf tag).user = ([], [])) ∧
    (∀ (rest : List Char) (cb : Callback σ α) (u0 : σ),
      ∃ l, (ParseFunc conf (Char.ofNat 44 :: rest) cb u0).calls = ([], []) :: l) := by
  constructor
  · intro tag hne hws
    unfold ParseName ParseFunc scanLoop
    dsimp only
    rw [scanLoopF_ws conf tag parseNameCb hws (tag.length - 0) 0 (initState ([], []))]
    dsimp only
    rw [if_pos (Or.inl (by
      dsimp [initState]
      exact List.length_pos.mpr hne))]
    unfold flush
    dsimp only
    rw [if_pos ⟨rfl, hn, rfl⟩]
    simp only [initState]
    rw [sliceTag_whole, unquoteTrim_ws conf tag hws, latch_empty_msg]
    exact ⟨rfl, rfl, rfl⟩
  · intro rest cb u0
    unfold ParseFunc scanLoop
    dsimp only
    have hstep : scanLoopF conf (Char.ofNat 44 :: rest) cb ((Char.ofNat 44 :: rest).length - 0)
        0 none 0 (initState u0) =
        scanLoopF conf (Char.ofNat 44 :: rest) cb rest.length 1 none 0
          { flush conf (Char.ofNat 44 :: rest) cb (initState u0) 0 with
            start := 1, inValue := false } := by
      show scanLoopF conf (Char.ofNat 44 :: rest) cb (rest.length + 1) 0 none 0
          (initState u0) = _
      conv_lhs => unfold scanLoopF
      dsimp only
      rw [if_neg (show ¬(0 : Nat) < 0 by omega),
        if_neg (show ¬(Char.ofNat 44 :: rest).getD 0 (Char.ofNat 65) = quo by
          rw [List.getD_cons_zero]; decide),
        if_neg (show ¬(Char.ofNat 44 :: rest).getD 0 (Char.ofNat 65) = bsl by
          rw [List.getD_cons_zero]; decide),
        if_neg (show ¬(Char.ofNat 44 :: rest).getD 0 (Char.ofNat 65) = Char.ofNat 58 by
          rw [List.getD_cons_zero]; decide),
        if_pos (show (Char.ofNat 44 :: rest).getD 0 (Char.ofNat 65) = Char.ofNat 44 by
          rw [List.getD_cons_zero])]
    rw [hstep]
    have hst1 : (flush conf (Char.ofNat 44 :: rest) cb (initState u0) 0).calls =
        [([], [])] := by
      unfold flush
      dsimp only
      rw [if_pos ⟨rfl, hn, rfl⟩, runCallback_calls, latch_calls, latch_key]
      rfl
    obtain ⟨l2, hl2⟩ := scanLoopF_calls_mono conf (Char.ofNat 44 :: rest) cb rest.length 1
      none 0 { flush conf (Char.ofNat 44 :: rest) cb (initState u0) 0 with
               start := 1, inValue := false }
    dsimp only at hl2
    dsimp only
    split
    · split
      · rename_i q hq
        obtain ⟨l3, hl3⟩ := flush_calls_mono conf (Char.ofNat 44 :: rest) cb
          (fail (Char.ofNat 44 :: rest)
            (scanLoopF conf (Char.ofNat 44 :: rest) cb rest.length 1 none 0
              { flush conf (Char.ofNat 44 :: rest) cb (initState u0) 0 with
                start := 1, inValue := false }).2.2 q "unterminated quote" none)
          (Char.ofNat 44 :: rest).length
        dsimp only at hl3
        refine ⟨l2 ++ l3, ?_⟩
        rw [hl3, fail_calls, hl2, hst1]
        simp
      · obtain ⟨l3, hl3⟩ := flush_calls_mono conf (Char.ofNat 44 :: rest) cb
          (scanLoopF conf (Char.ofNat 44 :: rest) cb rest.length 1 none 0
            { flush conf (Char.ofNat 44 :: rest) cb (initState u0) 0 with
              start := 1, inValue := false }).2.2
          (Char.ofNat 44 :: rest).length
        dsimp only at hl3
        refine ⟨l2 ++ l3, ?_⟩
        rw [hl3, hl2, hst1]
        simp
    · split
      · refine ⟨l2, ?_⟩
        rw [fail_calls, hl2, hst1]
        simp
      · refine ⟨l2, ?_⟩
        rw [hl2, hst1]
        simp

/-- Witness for C10: the whitespace-only tag " " in name mode produces
exactly one callback invocation, with empty key and empty value, and no
error. -/
theorem c10_witness :
    (ParseName WithName [Char.ofNat 32]).calls = [([], [])] ∧
    (ParseName WithName [Char.ofNat 32]).parseErr = none ∧
    (ParseName WithName [Char.ofNat 32]).user = ([], []) :=
  (@c10_empty_first_item_reported Unit Unit WithName rfl).1 [Char.ofNat 32]
    (by decide) (by decide)

set_option maxHeartbeats 1000000 in
/-- Counterexample for C2.  The two depth trackers are not the same: on
the same character sequence `(()` the Item Scanner ends at depth 0 (it
ignores an opening bracket while depth > 0: 1, 1, 0), while the Value
Normalizer's rewrite loop ends at depth 1 (it increments at any depth:
1, 2, 1).  Observably, normalizing the value `(()'x'` with bracket
nesting enabled and strict quotes returns it verbatim with no error,
because the quotes are reached at normalizer depth 1 and stay literal —
under scanner-style depth tracking the depth after `(()` would be 0, the
quotes would toggle quoting, and strict mode would latch
"invalid quote" (the first quote follows non-empty output). -/
theorem c2_counterexample :
    (scanLoop VMihailenco [Char.ofNat 40, Char.ofNat 40, Char.ofNat 41]
        (fun (u : Unit) _ _ => (u, (none : Option Unit))) 0 none 0
        (initState ())).2.1 = 0 ∧
    (utLoopF VMihailenco [Char.ofNat 40, Char.ofNat 40, Char.ofNat 41] 3 0
        ⟨[], 0, 0, false, "", 0⟩).nesting = 1 ∧
    unquoteTrim ⟨false, true, false⟩
        [Char.ofNat 40, Char.ofNat 40, Char.ofNat 41, quo, Char.ofNat 120, quo] =
      ([Char.ofNat 40, Char.ofNat 40, Char.ofNat 41, quo, Char.ofNat 120, quo], "", 0) := by
  refine ⟨by decide, by decide, by decide⟩

/-- C2 as amended: with bracket nesting enabled the two loops agree on
closing brackets (any of the three kinds decrements a positive depth) and
on commas, colons and quotes at depth > 0 (all literal), but they differ
on opening brackets at depth > 0: the Item Scanner ignores them (its depth
never exceeds 1), while the Value Normalizer increments its depth at any
depth and emits the bracket. -/
theorem c2_amended_nesting_rules (conf : Configuration) (cb : Callback σ α)
    (ns : Nat) (st : ScanState σ α) (ut : UTState)
    (hp : conf.AllowParenEscape = true) (hns : 0 < ns) (hut : 0 < ut.nesting) :
    scanLoop conf [Char.ofNat 40] cb 0 none ns st = (none, ns, st) ∧
    scanLoop conf [Char.ofNat 91] cb 0 none ns st = (none, ns, st) ∧
    scanLoop conf [Char.ofNat 123] cb 0 none ns st = (none, ns, st) ∧
    utLoopF conf [Char.ofNat 40] 1 0 ut =
      { ut with nesting := ut.nesting + 1, b := ut.b ++ [Char.ofNat 40] } ∧
    scanLoop conf [Char.ofNat 41] cb 0 none ns st = (none, ns - 1, st) ∧
    scanLoop conf [Char.ofNat 93] cb 0 none ns st = (none, ns - 1, st) ∧
    scanLoop conf [Char.ofNat 125] cb 0 none ns st = (none, ns - 1, st) ∧
    utLoopF conf [Char.ofNat 41] 1 0 ut =
      { ut with nesting := ut.nesting - 1, b := ut.b ++ [Char.ofNat 41] } ∧
    scanLoop conf [Char.ofNat 44] cb 0 none ns st = (none, ns, st) ∧
    scanLoop conf [Char.ofNat 58] cb 0 none ns st = (none, ns, st) ∧
    scanLoop conf [quo] cb 0 none ns st = (none, ns, st) ∧
    utLoopF conf [Char.ofNat 44] 1 0 ut = { ut with b := ut.b ++ [Char.ofNat 44] } ∧
    utLoopF conf [Char.ofNat 58] 1 0 ut = { ut with b := ut.b ++ [Char.ofNat 58] } ∧
    utLoopF conf [quo] 1 0 ut = { ut with b := ut.b ++ [quo] } := by
  refine ⟨?_, ?_, ?_, ?_, ?_, ?_, ?_, ?_, ?_, ?_, ?_, ?_, ?_, ?_⟩
  · show scanLoopF conf [Char.ofNat 40] cb 1 0 none ns st = _
    unfold scanLoopF; dsimp only; rw [if_pos hns]; rfl
  · show scanLoopF conf [Char.ofNat 91] cb 1 0 none ns st = _
    unfold scanLoopF; dsimp only; rw [if_pos hns]; rfl
  · show scanLoopF conf [Char.ofNat 123] cb 1 0 none ns st = _
    unfold scanLoopF; dsimp only; rw [if_pos hns]; rfl
  · unfold utLoopF; dsimp only
    rw [if_neg (by decide), if_pos (by decide), if_pos hp]
    rfl
  · show scanLoopF conf [Char.ofNat 41] cb 1 0 none ns st = _
    unfold scanLoopF; dsimp only; rw [if_pos hns]; rfl
  · show scanLoopF conf [Char.ofNat 93] cb 1 0 none ns st = _
    unfold scanLoopF; dsimp only; rw [if_pos hns]; rfl
  · show scanLoopF conf [Char.ofNat 125] cb 1 0 none ns st = _
    unfold scanLoopF; dsimp only; rw [if_pos hns]; rfl
  · unfold utLoopF; dsimp only
    rw [if_neg (by decide), if_neg (by decide), if_pos (by decide), if_pos ⟨hp, hut⟩]
    rfl
  · show scanLoopF conf [Char.ofNat 44] cb 1 0 none ns st = _
    unfold scanLoopF; dsimp only; rw [if_pos hns]; rfl
  · show scanLoopF conf [Char.ofNat 58] cb 1 0 none ns st = _
    unfold scanLoopF; dsimp only; rw [if_pos hns]; rfl
  · show scanLoopF conf [quo] cb 1 0 none ns st = _
    unfold scanLoopF; dsimp only; rw [if_pos hns]; rfl
  · unfold utLoopF; dsimp only
    rw [if_neg (by decide), if_neg (by decide), if_neg (by decide), if_neg (by decide)]
    rfl
  · unfold utLoopF; dsimp only
    rw [if_neg (by decide), if_neg (by decide), if_neg (by decide), if_neg (by decide)]
    rfl
  · unfold utLoopF; dsimp only
    rw [if_neg (by decide), if_neg (by decide), if_neg (by decide), if_pos (by decide),
      if_neg (by omega)]
    rfl

/-- Witness for C2 (amended): at depth 1, the scanner leaves `(`
untouched while the normalizer moves to depth 2 and keeps the bracket. -/
theorem c2_witness :
    scanLoop ⟨false, true, false⟩ [Char.ofNat 40]
        (fun (u : Unit) _ _ => (u, (none : Option Unit))) 0 none 1
        (initState ()) = (none, 1, initState ()) ∧
    utLoopF ⟨false, true, false⟩ [Char.ofNat 40] 1 0 ⟨[], 1, 0, false, "", 0⟩ =
      ⟨[Char.ofNat 40], 2, 0, false, "", 0⟩ :=
  ⟨(c2_amended_nesting_rules ⟨false, true, false⟩
      (fun (u : Unit) _ _ => (u, (none : Option Unit))) 1 (initState ())
      ⟨[], 1, 0, false, "", 0⟩ rfl (by decide) (by decide)).1,
   (c2_amended_nesting_rules ⟨false, true, false⟩
      (fun (u : Unit) _ _ => (u, (none : Option Unit))) 1 (initState ())
      ⟨[], 1, 0, false, "", 0⟩ rfl (by decide) (by decide)).2.2.2.1⟩

set_option maxHeartbeats 1000000 in
/-- Counterexample for C4.  On input `\ 'x'` (escaped space, then a
quoted `x`) in strict mode, the quote at offset 2 is the FIRST of exactly
two quotes — the opening of the first matched pair — and the only output
emitted before it is whitespace (the escaped space), yet the normalizer
latches "invalid quote" at offset 2.  The code's guard is `len(b) > 0`
(any output already emitted), not "non-whitespace output already emitted"
as the claim states. -/
theorem c4_counterexample :
    unquoteTrim WithoutName [bsl, Char.ofNat 32, quo, Char.ofNat 120, quo] =
      ([Char.ofNat 32, Char.ofNat 120], "invalid quote", 2) ∧
    List.count quo [bsl, Char.ofNat 32, quo, Char.ofNat 120, quo] = 2 ∧
    (unquoteTrim WithoutName [bsl, Char.ofNat 32]).1.all asciiSpace = true := by
  refine ⟨by decide, by decide, by decide⟩

/-- The tag `alfa:bravo', charlie 'delta` of the mid-value quote example. -/
def midQuoteTag : List Char :=
  [Char.ofNat 97, Char.ofNat 108, Char.ofNat 102, Char.ofNat 97, Char.ofNat 58,
   Char.ofNat 98, Char.ofNat 114, Char.ofNat 97, Char.ofNat 118, Char.ofNat 111, quo,
   Char.ofNat 44, Char.ofNat 32, Char.ofNat 99, Char.ofNat 104, Char.ofNat 97,
   Char.ofNat 114, Char.ofNat 108, Char.ofNat 105, Char.ofNat 101, Char.ofNat 32, quo,
   Char.ofNat 100, Char.ofNat 101, Char.ofNat 108, Char.ofNat 116, Char.ofNat 97]

set_option maxHeartbeats 4000000 in
/-- C4 as amended: in strict mode (`AllowMiddleQuote = false`) a quote at
depth 0 toggles quote state, is never emitted, and latches
"invalid quote" at its own offset exactly when it is beyond the first
matched pair (`quoteCount` would exceed 2) or ANY output — whitespace
included — has already been emitted (`b ≠ []` on the first quote); only
the first violation is recorded (the `parseErr = ""` guard).  Processing
still folds all quote-delimited segments: `alfa:bravo', charlie 'delta`
yields value "bravo, charlie delta" for key "alfa" in both strict and
permissive modes, with error "invalid quote (at 11)" (0-based offset 10)
only in strict mode. -/
theorem c4_invalid_quote_rule (conf : Configuration) (ut : UTState)
    (hm : conf.AllowMiddleQuote = false) (h0 : ut.nesting = 0) :
    (utLoopF conf [quo] 1 0 ut =
      if (2 < ut.quoteCount + 1 ∨ (ut.quoteCount + 1 = 1 ∧ ut.b ≠ [])) ∧ ut.parseErr = ""
      then ⟨ut.b, ut.nesting, ut.quoteCount + 1, !ut.inQuote, "invalid quote", 0⟩
      else ⟨ut.b, ut.nesting, ut.quoteCount + 1, !ut.inQuote, ut.parseErr, ut.errPos⟩) ∧
    (Parse WithoutName midQuoteTag).user =
      [([Char.ofNat 97, Char.ofNat 108, Char.ofNat 102, Char.ofNat 97],
        [Char.ofNat 98, Char.ofNat 114, Char.ofNat 97, Char.ofNat 118, Char.ofNat 111,
         Char.ofNat 44, Char.ofNat 32, Char.ofNat 99, Char.ofNat 104, Char.ofNat 97,
         Char.ofNat 114, Char.ofNat 108, Char.ofNat 105, Char.ofNat 101, Char.ofNat 32,
         Char.ofNat 100, Char.ofNat 101, Char.ofNat 108, Char.ofNat 116, Char.ofNat 97])] ∧
    (Parse WithoutName midQuoteTag).parseErr =
      some ⟨midQuoteTag, 10, "invalid quote", none⟩ ∧
    renderError causeText ⟨midQuoteTag, 10, "invalid quote", none⟩ =
      "invalid quote (at 11)" ∧
    (Parse ⟨false, false, true⟩ midQuoteTag).user =
      [([Char.ofNat 97, Char.ofNat 108, Char.ofNat 102, Char.ofNat 97],
        [Char.ofNat 98, Char.ofNat 114, Char.ofNat 97, Char.ofNat 118, Char.ofNat 111,
         Char.ofNat 44, Char.ofNat 32, Char.ofNat 99, Char.ofNat 104, Char.ofNat 97,
         Char.ofNat 114, Char.ofNat 108, Char.ofNat 105, Char.ofNat 101, Char.ofNat 32,
         Char.ofNat 100, Char.ofNat 101, Char.ofNat 108, Char.ofNat 116, Char.ofNat 97])] ∧
    (Parse ⟨false, false, true⟩ midQuoteTag).parseErr = none := by
  refine ⟨?_, by decide, by decide, by decide, by decide, by decide⟩
  unfold utLoopF
  dsimp only
  rw [if_neg (by decide), if_neg (by decide), if_neg (by decide), if_pos (by decide),
    if_pos h0, hm]
  by_cases hX : (2 < ut.quoteCount + 1 ∨ (ut.quoteCount + 1 = 1 ∧ ut.b ≠ [])) ∧
      ut.parseErr = ""
  · rw [if_pos ⟨rfl, hX.1, hX.2⟩, if_pos hX]
    rfl
  · rw [if_neg (fun hc => hX ⟨hc.2.1, hc.2.2⟩), if_neg hX]
    rfl

/-- Witness for C4 (amended): a first quote arriving after the output
buffer already holds a (non-whitespace) byte latches "invalid quote" at
its offset and toggles quote state. -/
theorem c4_witness :
    utLoopF WithoutName [quo] 1 0 ⟨[Char.ofNat 120], 0, 0, false, "", 0⟩ =
      ⟨[Char.ofNat 120], 0, 1, true, "invalid quote", 0⟩ :=
  (c4_invalid_quote_rule WithoutName ⟨[Char.ofNat 120], 0, 0, false, "", 0⟩ rfl rfl).1

/-- The final backslash of an appended `\w` suffix is itself unescaped
exactly when the rewrite walk over the preceding segment consumes that
segment exactly: scanning left to right, a backslash consumes the next
byte as well.  `landsOnSuffix l` says the walk over `l` ends exactly at
its end (rather than jumping one past it from an escape at the last
byte). -/
def landsOnSuffix : List Char → Bool
  | [] => true
  | c :: rest =>
    if c = bsl then
      match rest with
      | [] => false
      | _ :: rest2 => landsOnSuffix rest2
    else landsOnSuffix rest

theorem containsChar_of_mem : ∀ (s : List Char) (a : Char), a ∈ s → containsChar s a = true := by
  intro s a h
  induction s with
  | nil => cases h
  | cons c t ih =>
    unfold containsChar
    rcases List.mem_cons.mp h with h2 | h2
    · rw [if_pos h2.symm]
    · split
      · rfl
      · exact ih h2

theorem getD_append_left : ∀ (s t : List Char) (i : Nat) (d : Char), i < s.length →
    (s ++ t).getD i d = s.getD i d := by
  intro s
  induction s with
  | nil => intro t i d h; simp at h
  | cons c s' ih =>
    intro t i d h
    cases i with
    | zero => rfl
    | succ i' =>
      simp only [List.cons_append, List.getD_cons_succ]
      exact ih t i' d (by simpa using h)

theorem getD_append_self : ∀ (s t : List Char) (d : Char),
    (s ++ t).getD s.length d = t.getD 0 d := by
  intro s
  induction s with
  | nil => intro t d; rfl
  | cons c s' ih =>
    intro t d
    simp only [List.cons_append, List.length_cons, List.getD_cons_succ]
    exact ih t d

theorem getD_append_pair_fst (s : List Char) (a b d : Char) :
    (s ++ [a, b]).getD s.length d = a := by
  rw [getD_append_self]
  rfl

theorem getD_append_pair_snd (s : List Char) (a b d : Char) :
    (s ++ [a, b]).getD (s.length + 1) d = b := by
  have h : s ++ [a, b] = (s ++ [a]) ++ [b] := by simp
  rw [h, show s.length + 1 = (s ++ [a]).length by simp, getD_append_self]
  rfl

theorem trimStartAux_le_of_nonws : ∀ (l : List Char) (acc k : Nat), k < l.length →
    asciiSpace (l.getD k (Char.ofNat 65)) = false → trimStartAux l acc ≤ acc + k := by
  intro l
  induction l with
  | nil => intro acc k h; simp at h
  | cons c t ih =>
    intro acc k hk hns
    unfold trimStartAux
    split
    · rename_i hws
      cases k with
      | zero => rw [List.getD_cons_zero] at hns; rw [hws] at hns; cases hns
      | succ k' =>
        have := ih (acc + 1) k' (by simpa using hk)
          (by rw [List.getD_cons_succ] at hns; exact hns)
        omega
    · omega


theorem utLoopF_escaped_tail (conf : Configuration) (s : List Char) (w : Char) :
    ∀ (f i : Nat) (st : UTState), f = s.length + 1 - i → i ≤ s.length →
      landsOnSuffix (s.drop i) = true →
      ∃ t, (utLoopF conf (s ++ [bsl, w]) f i st).b = st.b ++ t ++ [w] := by
  intro f
  induction f using Nat.strong_induction_on with
  | _ f ih =>
    intro i st hf hi hl
    rcases f with _ | f'
    · omega
    · unfold utLoopF
      rcases Nat.lt_or_ge i s.length with hlt | hge
      · have hgd : (s ++ [bsl, w]).getD i (Char.ofNat 65) = s[i] := by
          rw [getD_append_left _ _ _ _ hlt]
          simp [List.getD_eq_getElem?_getD, List.getElem?_eq_getElem hlt]
        rw [List.drop_eq_getElem_cons hlt] at hl
        unfold landsOnSuffix at hl
        rw [hgd]
        by_cases hb : s[i] = bsl
        · rw [if_pos hb] at hl ⊢
          rw [if_pos (show i + 1 < (s ++ [bsl, w]).length by
            simp only [List.length_append, List.length_cons, List.length_nil]; omega)]
          rcases Nat.lt_or_ge (i + 1) s.length with hi1 | hi1
          · rw [List.drop_eq_getElem_cons hi1] at hl
            dsimp only at hl
            rcases f' with _ | g
            · omega
            · dsimp only
              obtain ⟨t', ht'⟩ := ih g (by omega) (i + 2)
                ⟨st.b ++ [(s ++ [bsl, w]).getD (i + 1) (Char.ofNat 65)], st.nesting,
                 st.quoteCount, st.inQuote, st.parseErr, st.errPos⟩ (by omega) (by omega) hl
              exact ⟨(s ++ [bsl, w]).getD (i + 1) (Char.ofNat 65) :: t', by rw [ht']; simp⟩
          · rw [List.drop_eq_nil_of_le (by omega)] at hl
            exact absurd hl Bool.false_ne_true
        · rw [if_neg hb] at hl ⊢
          have key : ∀ st' : UTState, (∃ u, st'.b = st.b ++ u) →
              ∃ t, (utLoopF conf (s ++ [bsl, w]) f' (i + 1) st').b = st.b ++ t ++ [w] := by
            intro st' hu
            obtain ⟨u, hu⟩ := hu
            obtain ⟨t', ht'⟩ := ih f' (by omega) (i + 1) st' (by omega) (by omega) hl
            exact ⟨u ++ t', by rw [ht', hu]; simp⟩
          split
          · exact key _ ⟨[s[i]], rfl⟩
          · split
            · exact key _ ⟨[s[i]], rfl⟩
            · split
              · split
                · split
                  · exact key _ ⟨[], (List.append_nil _).symm⟩
                  · exact key _ ⟨[], (List.append_nil _).symm⟩
                · exact key _ ⟨[s[i]], rfl⟩
              · exact key _ ⟨[s[i]], rfl⟩
      · have hieq : i = s.length := by omega
        subst hieq
        rw [getD_append_pair_fst, if_pos rfl,
          if_pos (show s.length + 1 < (s ++ [bsl, w]).length by
            simp only [List.length_append, List.length_cons, List.length_nil]; omega)]
        have hf0 : f' = 0 := by omega
        subst hf0
        dsimp only
        rw [getD_append_pair_snd]
        exact ⟨[], by simp⟩

/-- C9: the normalizer trims only unescaped trailing ASCII whitespace:
appending an escaped whitespace byte `\w` to any input whose rewrite walk
reaches that backslash (i.e. the backslash is itself unescaped, stated
via `landsOnSuffix` over the segment between the trim start and the
backslash) produces an output that still ends in `w` — even though the
inward trimming scan runs over raw whitespace bytes (including `w`)
before any escape processing, the escape lookahead reads past the
trimmed end and re-emits `w`.  In particular normalizing the two-byte
input backslash-space yields a single trailing space. -/
theorem c9_trailing_escaped_whitespace_survives (conf : Configuration) (s : List Char)
    (w : Char) (hw : asciiSpace w = true)
    (hl : landsOnSuffix (s.drop (trimStart (s ++ [bsl, w]))) = true) :
    ∃ t, (unquoteTrim conf (s ++ [bsl, w])).1 = t ++ [w] := by
  have hlen : (s ++ [bsl, w]).length = s.length + 2 := by
    simp only [List.length_append, List.length_cons, List.length_nil]
  have hcont : containsChar (s ++ [bsl, w]) bsl = true :=
    containsChar_of_mem _ _ (List.mem_append.mpr (Or.inr (List.mem_cons_self ..)))
  have hstart : trimStart (s ++ [bsl, w]) ≤ s.length := by
    unfold trimStart
    have := trimStartAux_le_of_nonws (s ++ [bsl, w]) 0 s.length
      (by rw [hlen]; omega) (by rw [getD_append_pair_fst]; decide)
    omega
  have hend : trimEndLoop (s ++ [bsl, w]) (trimStart (s ++ [bsl, w]))
      ((s ++ [bsl, w]).length) = s.length + 1 := by
    rw [hlen]
    show trimEndLoop _ _ (s.length + 1 + 1) = _
    unfold trimEndLoop
    rw [if_pos ⟨by omega, by rw [getD_append_pair_snd]; exact hw⟩]
    unfold trimEndLoop
    rw [if_neg (by
      rw [getD_append_pair_fst]
      intro hc
      exact absurd hc.2 (by decide))]
  unfold unquoteTrim
  rw [if_neg (by rw [hcont]; simp)]
  dsimp only
  rw [hend]
  obtain ⟨t, ht⟩ := utLoopF_escaped_tail conf s w
    (s.length + 1 - trimStart (s ++ [bsl, w])) (trimStart (s ++ [bsl, w]))
    ⟨[], 0, 0, false, "", 0⟩ rfl hstart hl
  exact ⟨t, by rw [ht]; simp⟩

/-- Witness for C9: normalizing `a\ ` (and, as the degenerate case of the
example in the claim, `\ `) keeps the escaped trailing space. -/
theorem c9_witness :
    asciiSpace (Char.ofNat 32) = true ∧
    (∃ t, (unquoteTrim WithName ([Char.ofNat 97] ++ [bsl, Char.ofNat 32])).1 =
      t ++ [Char.ofNat 32]) ∧
    (∃ t, (unquoteTrim WithName ([] ++ [bsl, Char.ofNat 32])).1 = t ++ [Char.ofNat 32]) :=
  ⟨by decide,
   c9_trailing_escaped_whitespace_survives WithName [Char.ofNat 97] (Char.ofNat 32)
     (by decide) (by decide),
   c9_trailing_escaped_whitespace_survives WithName [] (Char.ofNat 32)
     (by decide) (by decide)⟩
